import Mathlib

/-!
Shallow embedding of the trim-branches CLI (src/index.js), a tool that
deletes remote git branches already merged into the main branch.

Branch names and refs are modelled as lists of characters (`JStr`), so the
JavaScript string operations used by the source (`includes`, `endsWith`,
`replace` of the first occurrence, `trim`) can be given executable,
provable definitions.  External git/network calls are modelled by an
environment (`GitEnv`) recording the outcome of each call, and the
orchestration in `BranchPruner.run` is embedded as a function producing an
exit code together with the ordered trace of external calls it performs.
-/

namespace TrimBranches

/-- Strings as lists of characters, the shallow model of JS strings. -/
abbrev JStr := List Char

/-- Coerce a Lean string literal to the `JStr` model. -/
def str (s : String) : JStr := s.data

/-- `jsStartsWith s p` : does `s` start with `p`?  Model of the check a JS
substring search performs at one position. -/
def jsStartsWith : JStr → JStr → Bool
  | _, [] => true
  | [], _ :: _ => false
  | c :: s, d :: p => c == d && jsStartsWith s p

/-- Model of JS `String.prototype.includes`: substring occurrence. -/
def jsIncludes (pat : JStr) : JStr → Bool
  | [] => jsStartsWith [] pat
  | c :: rest => jsStartsWith (c :: rest) pat || jsIncludes pat rest

/-- Model of JS `String.prototype.endsWith`. -/
def jsEndsWith (s p : JStr) : Bool :=
  jsStartsWith s.reverse p.reverse

/-- Model of JS `String.prototype.replace` with a string pattern:
replaces the first occurrence of `pat` by `rep`, leaves the string
unchanged when `pat` does not occur. -/
def jsReplaceFirst (pat rep : JStr) : JStr → JStr
  | [] => if pat = [] then rep else []
  | c :: s =>
    if jsStartsWith (c :: s) pat then rep ++ List.drop pat.length (c :: s)
    else c :: jsReplaceFirst pat rep s

/-- The whitespace characters JS `trim` removes (the ones relevant here). -/
def jsIsSpace (c : Char) : Bool :=
  c == ' ' || c == '\t' || c == '\n' || c == '\r'

/-- Model of JS `String.prototype.trim`. -/
def jsTrim (s : JStr) : JStr :=
  ((s.dropWhile jsIsSpace).reverse.dropWhile jsIsSpace).reverse

/-- The explicit keep-filter loop of `getMergedBranches` (src/index.js
lines 79–95): skip the main branch, skip `develop` when `keepDevelop`
is set, skip `HEAD`, keep everything else in order. -/
def keepFilter (mainBranch : JStr) (keepDevelop : Bool) : List JStr → List JStr
  | [] => []
  | b :: rest =>
    if b = mainBranch then keepFilter mainBranch keepDevelop rest
    else if keepDevelop = true ∧ b = str "develop" then keepFilter mainBranch keepDevelop rest
    else if b = str "HEAD" then keepFilter mainBranch keepDevelop rest
    else b :: keepFilter mainBranch keepDevelop rest

/-- `BranchPruner.getMergedBranches` (src/index.js lines 66–102) applied to
the ref list `all` returned by `git branch -r --merged origin/<main>`:
drop symbolic refs (containing " -> "), drop refs ending in
`origin/<main>`, strip the first "origin/" and trim, then run the
keep-filter loop. -/
def getMergedBranches (mainBranch : JStr) (keepDevelop : Bool) (all : List JStr) : List JStr :=
  let mergedBranches :=
    ((all.filter (fun b => !(jsIncludes (str " -> ") b))).filter
        (fun b => !(jsEndsWith b (str "origin/" ++ mainBranch)))).map
      (fun b => jsTrim (jsReplaceFirst (str "origin/") [] b))
  keepFilter mainBranch keepDevelop mergedBranches

/-- One entry of the log returned by the `git log` call in
`getBranchInfo`: the most recent commit of a ref, as simple-git reports
it. -/
structure CommitEntry where
  hash : String
  message : String
  author_name : String
  date : String
deriving DecidableEq

/-- The record `getBranchInfo` returns for display. -/
structure BranchInfo where
  hash : String
  message : String
  author : String
  date : String
deriving DecidableEq

/-- `BranchPruner.getBranchInfo` (src/index.js lines 104–134), as a
function of the outcome of the `git.log` call: `.error ()` models the
call throwing, `.ok none` models a log with no latest commit, and
`.ok (some e)` a successful lookup.  On success the hash is shortened to
7 characters (`substring(0, 7)`); on either failure every field is the
sentinel "unknown". -/
def getBranchInfo (lookup : Except Unit (Option CommitEntry)) : BranchInfo :=
  match lookup with
  | .ok (some e) => ⟨e.hash.take 7, e.message, e.author_name, e.date⟩
  | .ok none => ⟨"unknown", "unknown", "unknown", "unknown"⟩
  | .error _ => ⟨"unknown", "unknown", "unknown", "unknown"⟩

/-- JS numbers restricted to the values that arise in
`getRelativeDate`: `none` is NaN (the result of arithmetic on an
invalid `Date`), `some n` an integer-valued number. -/
abbrev JSNum := Option Int

/-- JS `===` between a (possibly NaN) number and an integer literal:
any comparison with NaN is false. -/
def jsNumEq (a : JSNum) (b : Int) : Bool :=
  match a with
  | none => false
  | some x => x = b

/-- JS `<` between a (possibly NaN) number and an integer literal:
any comparison with NaN is false. -/
def jsNumLt (a : JSNum) (b : Int) : Bool :=
  match a with
  | none => false
  | some x => x < b

/-- JS `Math.floor(a / b)` for `b > 0`: NaN propagates, otherwise floor
division. -/
def jsFloorDiv (a : JSNum) (b : Int) : JSNum :=
  a.map (fun x => Int.fdiv x b)

/-- JS template-literal rendering of a number: NaN prints as "NaN". -/
def jsNumToString (a : JSNum) : String :=
  match a with
  | none => "NaN"
  | some x => toString x

/-- `BranchPruner.getRelativeDate` (src/index.js lines 150–166) as a
function of `diffMs = now - new Date(dateString)`: `none` models the NaN
produced when the date string is unparseable (JS `new Date` yields an
Invalid Date and never throws, so the catch branch returning "unknown"
is unreachable for unparseable strings). -/
def getRelativeDate (diffMs : JSNum) : String :=
  let diffDays := jsFloorDiv diffMs (1000 * 60 * 60 * 24)
  if jsNumEq diffDays 0 then "today"
  else if jsNumEq diffDays 1 then "yesterday"
  else if jsNumLt diffDays 7 then jsNumToString diffDays ++ " days ago"
  else if jsNumLt diffDays 30 then jsNumToString (jsFloorDiv diffDays 7) ++ " weeks ago"
  else if jsNumLt diffDays 365 then jsNumToString (jsFloorDiv diffDays 30) ++ " months ago"
  else jsNumToString (jsFloorDiv diffDays 365) ++ " years ago"

/-- `BranchPruner.confirmDeletion` (src/index.js lines 168–184) as a
function of the prompt answer: with `force` it returns true without
prompting; otherwise the inquirer confirm prompt resolves the user's
input, `none` (empty input) falling back to the configured
`default: false`. -/
def confirmDeletion (force : Bool) (input : Option Bool) : Bool :=
  if force then true else input.getD false

/-- Result of `BranchPruner.deleteBranches`: the two counters it
returns, together with the ordered list of branches for which a
`git push origin <b> --delete` call was attempted. -/
structure DeleteOutcome where
  deletedCount : Nat
  failedCount : Nat
  calls : List JStr
deriving DecidableEq

/-- `BranchPruner.deleteBranches` (src/index.js lines 186–205):
attempt a remote delete for every branch in order; `ok b` models
whether the push call for `b` succeeds.  A failure is caught, counted
in `failedCount`, and the loop continues. -/
def deleteBranches (ok : JStr → Bool) : List JStr → DeleteOutcome
  | [] => ⟨0, 0, []⟩
  | b :: rest =>
    let step := deleteBranches ok rest
    if ok b then ⟨step.deletedCount + 1, step.failedCount, b :: step.calls⟩
    else ⟨step.deletedCount, step.failedCount + 1, b :: step.calls⟩

/-- The configuration of one run (constructor of `BranchPruner`). -/
structure Config where
  mainBranch : JStr
  dryRun : Bool
  force : Bool
  keepDevelop : Bool

/-- One external call made during `BranchPruner.run`, in order. -/
inductive GitCall where
  | checkRepo
  | fetch
  | branchList
  | mergedList
  | logLookup (b : JStr)
  | displayList
  | prompt
  | deleteBranch (b : JStr)
  | remotePrune
  | branchCount
deriving DecidableEq

/-- The environment of one run: the outcome of each external call.
`repoCheckOk` models whether the awaited `git.checkIsRepo()` call
resolves (false = it rejects with an unexpected error); `repoIsRepo` is
the boolean the call resolves with — simple-git reports "not a git
repository" by resolving `false`, not by rejecting, and the code at
src/index.js line 30 discards this boolean, so `run` never reads it.
`fetchOk` models whether the fetch resolves; `remoteBranches` is the
`git branch -r` listing, `mergedRefs` the
`git branch -r --merged origin/<main>` listing; `promptInput` is the
confirmation answer (`none` = empty input); `deleteOk` gives the
outcome of each remote delete. -/
structure GitEnv where
  repoCheckOk : Bool
  repoIsRepo : Bool
  fetchOk : Bool
  remoteBranches : List JStr
  mergedRefs : List JStr
  promptInput : Option Bool
  deleteOk : JStr → Bool

/-- Outcome of a run: the process exit code and the ordered trace of
external calls performed. -/
structure RunOutcome where
  exitCode : Nat
  calls : List GitCall

/-- `BranchPruner.run` (src/index.js lines 225–275).  A rejected repo
check or fetch, or a missing `origin/<main>` ref, exits 1 at once; the
boolean `checkIsRepo` resolves with is discarded (src/index.js line
30), so a check that resolves `false` does not stop the run.
Otherwise the merged candidates are computed; an empty list returns
success; candidates are displayed (one log lookup each); `dryRun`
returns right after the display; otherwise the confirmation gate runs
(no prompt when `force`), a denial returns success with no deletions,
and a confirmation deletes every candidate in order (failures caught
per branch, never fatal), prunes local tracking refs and queries the
remaining branch count for the summary. -/
def run (cfg : Config) (env : GitEnv) : RunOutcome :=
  if !env.repoCheckOk then ⟨1, [.checkRepo]⟩
  else if !env.fetchOk then ⟨1, [.checkRepo, .fetch]⟩
  else if !(env.remoteBranches.contains (str "origin/" ++ cfg.mainBranch)) then
    ⟨1, [.checkRepo, .fetch, .branchList]⟩
  else
    let branches := getMergedBranches cfg.mainBranch cfg.keepDevelop env.mergedRefs
    let pre : List GitCall := [.checkRepo, .fetch, .branchList, .mergedList]
    if branches.isEmpty then ⟨0, pre⟩
    else
      let disp := pre ++ branches.map GitCall.logLookup ++ [GitCall.displayList]
      if cfg.dryRun then ⟨0, disp⟩
      else
        let promptCalls : List GitCall := if cfg.force then [] else [.prompt]
        if confirmDeletion cfg.force env.promptInput then
          ⟨0, disp ++ promptCalls ++ branches.map GitCall.deleteBranch
                ++ [GitCall.remotePrune, GitCall.branchCount]⟩
        else ⟨0, disp ++ promptCalls⟩

/-- A dry-run configuration used to instantiate the dry-run theorem. -/
def cfgDry : Config := ⟨str "main", true, false, true⟩

/-- An environment with one merged candidate, used to instantiate the
dry-run theorem. -/
def envDry : GitEnv :=
  ⟨true, true, true, [str "origin/main"], [str "origin/main", str "origin/feature"], none,
    fun _ => true⟩

/-- A no-force configuration used to instantiate the confirmation-gate
theorem. -/
def cfgAsk : Config := ⟨str "main", false, false, true⟩

/-- A force configuration used to instantiate the confirmation-gate
theorem. -/
def cfgForce : Config := ⟨str "main", false, true, true⟩

/-- An environment with one merged candidate and an empty prompt answer,
used to instantiate the confirmation-gate theorem. -/
def envAsk : GitEnv :=
  ⟨true, true, true, [str "origin/main"], [str "origin/main", str "origin/feature"], none,
    fun _ => true⟩

/-- A configuration used to instantiate the not-a-repository theorem. -/
def cfgRepo : Config := ⟨str "main", false, false, true⟩

/-- An environment for the not-a-repository scenario: `checkIsRepo`
resolves (no rejection) with the boolean `false` — the working
directory is not a git repository — and the subsequent fetch, run
outside a repository, rejects. -/
def envNotRepo : GitEnv :=
  ⟨true, false, false, [str "origin/main"], [str "origin/main"], none, fun _ => true⟩

/-! Helper lemmas (shared). -/

theorem jsStartsWith_iff (p : JStr) : ∀ s : JStr, jsStartsWith s p = true ↔ ∃ t, s = p ++ t := by
  induction p with
  | nil =>
    intro s
    simp [jsStartsWith]
  | cons d p ih =>
    intro s
    cases s with
    | nil =>
      simp [jsStartsWith]
    | cons c s' =>
      simp only [jsStartsWith, Bool.and_eq_true, beq_iff_eq, ih]
      constructor
      · rintro ⟨rfl, t, rfl⟩
        exact ⟨t, rfl⟩
      · rintro ⟨t, ht⟩
        rw [List.cons_append] at ht
        injection ht with h1 h2
        exact ⟨h1, t, h2⟩

theorem jsEndsWith_iff (s p : JStr) : jsEndsWith s p = true ↔ ∃ t, s = t ++ p := by
  unfold jsEndsWith
  rw [jsStartsWith_iff]
  constructor
  · rintro ⟨t, ht⟩
    refine ⟨t.reverse, ?_⟩
    have h := congrArg List.reverse ht
    simpa using h
  · rintro ⟨t, rfl⟩
    exact ⟨t.reverse, by simp⟩

theorem endsWith_origin_develop (m : JStr) (hm : m ≠ str "develop") :
    jsEndsWith (str "origin/develop") (str "origin/" ++ m) = false := by
  by_contra hne
  simp only [Bool.not_eq_false] at hne
  rcases (jsEndsWith_iff _ _).mp hne with ⟨t, ht⟩
  have h14 : (str "origin/develop").length = 14 := by decide
  have h7 : (str "origin/").length = 7 := by decide
  have hlen := congrArg List.length ht
  rw [List.length_append, List.length_append, h14, h7] at hlen
  have hd : List.drop t.length (str "origin/develop") = str "origin/" ++ m := by
    rw [ht]
    exact List.drop_left t (str "origin/" ++ m)
  have ht7 : (List.drop t.length (str "origin/develop")).take 7 = str "origin/" := by
    rw [hd, ← h7, List.take_left]
  have hcases : t.length = 0 ∨ t.length = 1 ∨ t.length = 2 ∨ t.length = 3 ∨
      t.length = 4 ∨ t.length = 5 ∨ t.length = 6 ∨ t.length = 7 := by omega
  rcases hcases with h | h | h | h | h | h | h | h
  · have ht0 : t = [] := List.length_eq_zero.mp h
    rw [ht0, List.nil_append] at ht
    have hdev : str "origin/" ++ m = str "origin/" ++ str "develop" := by
      rw [← ht]; decide
    exact hm (List.append_cancel_left hdev)
  all_goals (rw [h] at ht7; exact absurd ht7 (by decide))

theorem keepFilter_mem {m : JStr} {kd : Bool} {l : List JStr} {b : JStr}
    (hb : b ∈ keepFilter m kd l) :
    b ≠ m ∧ ¬(kd = true ∧ b = str "develop") ∧ b ≠ str "HEAD" := by
  induction l with
  | nil => simp [keepFilter] at hb
  | cons c rest ih =>
    simp only [keepFilter] at hb
    by_cases g1 : c = m
    · rw [if_pos g1] at hb; exact ih hb
    · rw [if_neg g1] at hb
      by_cases g2 : kd = true ∧ c = str "develop"
      · rw [if_pos g2] at hb; exact ih hb
      · rw [if_neg g2] at hb
        by_cases g3 : c = str "HEAD"
        · rw [if_pos g3] at hb; exact ih hb
        · rw [if_neg g3] at hb
          rcases List.mem_cons.mp hb with rfl | h
          · exact ⟨g1, g2, g3⟩
          · exact ih h

theorem keepFilter_mem_of {m : JStr} {kd : Bool} {l : List JStr} {b : JStr}
    (hb : b ∈ l) (h1 : b ≠ m) (h2 : ¬(kd = true ∧ b = str "develop"))
    (h3 : b ≠ str "HEAD") :
    b ∈ keepFilter m kd l := by
  induction l with
  | nil => simp at hb
  | cons c rest ih =>
    rcases List.mem_cons.mp hb with rfl | h
    · simp only [keepFilter]
      rw [if_neg h1, if_neg h2, if_neg h3]
      exact List.mem_cons_self b _
    · simp only [keepFilter]
      split_ifs
      · exact ih h
      · exact ih h
      · exact ih h
      · exact List.mem_cons_of_mem _ (ih h)

theorem deleteBranches_calls (ok : JStr → Bool) (bs : List JStr) :
    (deleteBranches ok bs).calls = bs := by
  induction bs with
  | nil => rfl
  | cons b rest ih =>
    simp only [deleteBranches]
    split_ifs <;> simpa using ih

theorem deleteBranches_sum (ok : JStr → Bool) (bs : List JStr) :
    (deleteBranches ok bs).deletedCount + (deleteBranches ok bs).failedCount = bs.length := by
  induction bs with
  | nil => rfl
  | cons b rest ih =>
    simp only [deleteBranches]
    split_ifs <;> simp <;> omega

/-! Claim theorems. -/

/-- C1: for every merged-ref query result and configuration, the
candidate list computed by `getMergedBranches` never contains the
configured main branch name, never contains "HEAD", and never contains
"develop" when `keepDevelop` is true. -/
theorem merged_candidates_protected (m : JStr) (kd : Bool) (all : List JStr) :
    m ∉ getMergedBranches m kd all ∧
    str "HEAD" ∉ getMergedBranches m kd all ∧
    (kd = true → str "develop" ∉ getMergedBranches m kd all) := by
  simp only [getMergedBranches]
  refine ⟨fun h => ?_, fun h => ?_, fun hkd h => ?_⟩
  · exact (keepFilter_mem h).1 rfl
  · exact (keepFilter_mem h).2.2 rfl
  · exact (keepFilter_mem h).2.1 ⟨hkd, rfl⟩

/-- Witness for C1 at a concrete input: with `keepDevelop` set, a merged
"origin/develop" ref does not put "develop" into the candidates. -/
theorem merged_candidates_protected_witness :
    str "develop" ∉
      getMergedBranches (str "main") true [str "origin/develop", str "origin/feature"] :=
  (merged_candidates_protected (str "main") true
    [str "origin/develop", str "origin/feature"]).2.2 rfl

/-- C2: `deleteBranches` attempts a delete for every candidate in
listing order even when some deletions fail, the counts partition the
candidates, and in the concrete 3-candidate scenario where only the 2nd
delete fails the result is 2 deleted, 1 failed, all three attempted. -/
theorem deleteBranches_no_abort :
    (∀ (ok : JStr → Bool) (bs : List JStr),
        (deleteBranches ok bs).calls = bs ∧
        (deleteBranches ok bs).deletedCount + (deleteBranches ok bs).failedCount
          = bs.length) ∧
    deleteBranches (fun b => !(b == str "beta"))
        [str "alpha", str "beta", str "gamma"]
      = ⟨2, 1, [str "alpha", str "beta", str "gamma"]⟩ :=
  ⟨fun ok bs => ⟨deleteBranches_calls ok bs, deleteBranches_sum ok bs⟩, by decide⟩

/-- C9: for every candidate list and every pattern of per-branch
success/failure, `deleteBranches` returns counts with
`deletedCount + failedCount` equal to the number of candidates, both
counts being natural numbers (hence non-negative). -/
theorem deleteBranches_counts_partition (ok : JStr → Bool) (bs : List JStr) :
    (deleteBranches ok bs).deletedCount + (deleteBranches ok bs).failedCount
      = bs.length ∧
    0 ≤ (deleteBranches ok bs).deletedCount ∧ 0 ≤ (deleteBranches ok bs).failedCount :=
  ⟨deleteBranches_sum ok bs, Nat.zero_le _, Nat.zero_le _⟩

/-- C5 (failing input): on an unparseable date string, `new Date` yields
an Invalid Date and the subtraction yields NaN, so `getRelativeDate`
falls through every comparison and returns "NaN years ago" instead of
the documented "unknown" (the catch branch returning "unknown" is
unreachable since nothing throws). -/
theorem getRelativeDate_unparseable_eval : getRelativeDate none = "NaN years ago" := by
  decide

/-- C7: when the per-branch commit lookup fails (`.error`) or yields no
commit (`.ok none`), `getBranchInfo` returns the sentinel "unknown" for
all four fields instead of raising. -/
theorem getBranchInfo_failure_sentinel (lookup : Except Unit (Option CommitEntry))
    (h : lookup = .error () ∨ lookup = .ok none) :
    getBranchInfo lookup = ⟨"unknown", "unknown", "unknown", "unknown"⟩ := by
  rcases h with rfl | rfl <;> rfl

/-- Witness for C7 at a concrete input: a throwing lookup yields the
all-"unknown" record. -/
theorem getBranchInfo_failure_sentinel_witness :
    ((Except.error () : Except Unit (Option CommitEntry)) = .error () ∨
        (Except.error () : Except Unit (Option CommitEntry)) = .ok none) ∧
    getBranchInfo (.error ()) = ⟨"unknown", "unknown", "unknown", "unknown"⟩ :=
  ⟨Or.inl rfl, getBranchInfo_failure_sentinel (.error ()) (Or.inl rfl)⟩

/-- C8: when `keepDevelop` is false and the main branch is not
"develop", a merged "origin/develop" ref in the query result puts
"develop" into the candidate list. -/
theorem merged_includes_develop (m : JStr) (all : List JStr)
    (hm : m ≠ str "develop") (hmem : str "origin/develop" ∈ all) :
    str "develop" ∈ getMergedBranches m false all := by
  simp only [getMergedBranches]
  refine keepFilter_mem_of ?_ (fun h => hm h.symm) ?_ (by decide)
  · refine List.mem_map.mpr ⟨str "origin/develop", ?_, by decide⟩
    refine List.mem_filter.mpr ⟨List.mem_filter.mpr ⟨hmem, by decide⟩, ?_⟩
    rw [endsWith_origin_develop m hm]
    rfl
  · rintro ⟨hkd, -⟩
    simp at hkd

/-- Witness for C8 at a concrete input. -/
theorem merged_includes_develop_witness :
    str "main" ≠ str "develop" ∧
    str "origin/develop" ∈ [str "origin/develop", str "origin/feature"] ∧
    str "develop" ∈
      getMergedBranches (str "main") false [str "origin/develop", str "origin/feature"] :=
  ⟨by decide, by decide,
    merged_includes_develop (str "main") [str "origin/develop", str "origin/feature"]
      (by decide) (by decide)⟩

/-- C10: a merged ref whose full ref string ends with
"origin/<mainBranch>" — for instance "origin/foo/origin/main" — is
excluded by `getMergedBranches`: the candidate list is the same as if
the ref were absent from the query result. -/
theorem merged_excludes_main_suffixed (m : JStr) (kd : Bool) (r : JStr)
    (l₁ l₂ : List JStr) (hr : jsEndsWith r (str "origin/" ++ m) = true) :
    getMergedBranches m kd (l₁ ++ r :: l₂) = getMergedBranches m kd (l₁ ++ l₂) := by
  simp only [getMergedBranches]
  rw [List.filter_append, List.filter_append, List.filter_cons]
  by_cases hinc : jsIncludes (str " -> ") r
  · simp [hinc]
  · simp [hinc, List.filter_append, List.filter_cons, hr]

/-- Witness for C10 at the concrete ref "origin/foo/origin/main". -/
theorem merged_excludes_main_suffixed_witness :
    jsEndsWith (str "origin/foo/origin/main") (str "origin/" ++ str "main") = true ∧
    getMergedBranches (str "main") true
        ([str "origin/a"] ++ str "origin/foo/origin/main" :: [str "origin/feature"])
      = getMergedBranches (str "main") true ([str "origin/a"] ++ [str "origin/feature"]) :=
  ⟨by decide,
    merged_excludes_main_suffixed (str "main") true (str "origin/foo/origin/main")
      [str "origin/a"] [str "origin/feature"] (by decide)⟩

/-- C3: in a run with `dryRun` and at least one candidate (repository
check, fetch and main-branch check having succeeded), the run displays
the candidates, then no delete call, no confirmation prompt and no
local-prune call ever occurs, and the run exits 0. -/
theorem run_dryRun_no_mutation (cfg : Config) (env : GitEnv)
    (h1 : env.repoCheckOk = true) (h2 : env.fetchOk = true)
    (h3 : env.remoteBranches.contains (str "origin/" ++ cfg.mainBranch) = true)
    (h4 : cfg.dryRun = true)
    (h5 : getMergedBranches cfg.mainBranch cfg.keepDevelop env.mergedRefs ≠ []) :
    (run cfg env).exitCode = 0 ∧
    GitCall.displayList ∈ (run cfg env).calls ∧
    (∀ b, GitCall.deleteBranch b ∉ (run cfg env).calls) ∧
    GitCall.prompt ∉ (run cfg env).calls ∧
    GitCall.remotePrune ∉ (run cfg env).calls := by
  have h5' : (getMergedBranches cfg.mainBranch cfg.keepDevelop env.mergedRefs).isEmpty
      = false := by
    cases hL : getMergedBranches cfg.mainBranch cfg.keepDevelop env.mergedRefs with
    | nil => exact absurd hL h5
    | cons a l => rfl
  have h3' : str "origin/" ++ cfg.mainBranch ∈ env.remoteBranches := by
    simpa using h3
  simp [run, h1, h2, h3', h4, h5']

/-- Witness for C3 at a concrete dry-run configuration. -/
theorem run_dryRun_no_mutation_witness :
    cfgDry.dryRun = true ∧
    (run cfgDry envDry).exitCode = 0 ∧
    GitCall.displayList ∈ (run cfgDry envDry).calls ∧
    GitCall.deleteBranch (str "feature") ∉ (run cfgDry envDry).calls ∧
    GitCall.prompt ∉ (run cfgDry envDry).calls ∧
    GitCall.remotePrune ∉ (run cfgDry envDry).calls := by
  have h := run_dryRun_no_mutation cfgDry envDry (by decide) (by decide) (by decide)
    (by decide) (by decide)
  exact ⟨by decide, h.1, h.2.1, h.2.2.1 _, h.2.2.2.1, h.2.2.2.2⟩

/-- C4: in a non-dry run with at least one candidate, when `force` is
false the run reaches the yes/no prompt, whose default on empty input
is "no" (`confirmDeletion false none = false`); a denied confirmation
(empty input or an explicit no) ends the run with exit 0 and no delete
call; when `force` is true the prompt is skipped and a delete call is
made for every candidate. -/
theorem run_confirmation_gate (cfg : Config) (env : GitEnv)
    (h1 : env.repoCheckOk = true) (h2 : env.fetchOk = true)
    (h3 : env.remoteBranches.contains (str "origin/" ++ cfg.mainBranch) = true)
    (h4 : cfg.dryRun = false)
    (h5 : getMergedBranches cfg.mainBranch cfg.keepDevelop env.mergedRefs ≠ []) :
    (cfg.force = false → GitCall.prompt ∈ (run cfg env).calls) ∧
    confirmDeletion false none = false ∧
    (cfg.force = false → env.promptInput.getD false = false →
      (run cfg env).exitCode = 0 ∧ ∀ b, GitCall.deleteBranch b ∉ (run cfg env).calls) ∧
    (cfg.force = true → GitCall.prompt ∉ (run cfg env).calls ∧
      ∀ b ∈ getMergedBranches cfg.mainBranch cfg.keepDevelop env.mergedRefs,
        GitCall.deleteBranch b ∈ (run cfg env).calls) := by
  have h5' : (getMergedBranches cfg.mainBranch cfg.keepDevelop env.mergedRefs).isEmpty
      = false := by
    cases hL : getMergedBranches cfg.mainBranch cfg.keepDevelop env.mergedRefs with
    | nil => exact absurd hL h5
    | cons a l => rfl
  have h3' : str "origin/" ++ cfg.mainBranch ∈ env.remoteBranches := by
    simpa using h3
  refine ⟨fun hf => ?_, rfl, fun hf hno => ?_, fun hf => ?_⟩
  · cases hc : env.promptInput.getD false <;>
      simp [run, h1, h2, h3', h4, h5', hf, confirmDeletion, hc]
  · simp [run, h1, h2, h3', h4, h5', hf, confirmDeletion, hno]
  · simp [run, h1, h2, h3', h4, h5', hf, confirmDeletion]

/-- Witness for C4 at concrete inputs: with no `force` and empty prompt
input the prompt occurs and nothing is deleted; with `force` the prompt
is skipped and the candidate is deleted. -/
theorem run_confirmation_gate_witness :
    GitCall.prompt ∈ (run cfgAsk envAsk).calls ∧
    confirmDeletion false none = false ∧
    (run cfgAsk envAsk).exitCode = 0 ∧
    GitCall.deleteBranch (str "feature") ∉ (run cfgAsk envAsk).calls ∧
    GitCall.prompt ∉ (run cfgForce envAsk).calls ∧
    GitCall.deleteBranch (str "feature") ∈ (run cfgForce envAsk).calls := by
  have ha := run_confirmation_gate cfgAsk envAsk (by decide) (by decide) (by decide)
    (by decide) (by decide)
  have hf := run_confirmation_gate cfgForce envAsk (by decide) (by decide) (by decide)
    (by decide) (by decide)
  refine ⟨ha.1 (by decide), ha.2.1, (ha.2.2.1 (by decide) (by decide)).1,
    (ha.2.2.1 (by decide) (by decide)).2 _, (hf.2.2.2 (by decide)).1,
    (hf.2.2.2 (by decide)).2 (str "feature") (by decide)⟩

/-- C6 (failing input): when `checkIsRepo` reports "not a repository"
the way simple-git reports it — by resolving `false`, not by
rejecting — the code at src/index.js line 30 discards the boolean, so
the run does not abort after the check: it proceeds to attempt the
fetch (the call trace is `[checkRepo, fetch]`), contradicting the
claimed "no further action"; the eventual non-zero exit comes only from
the fetch itself rejecting. -/
theorem run_not_repo_fetch_attempted :
    envNotRepo.repoCheckOk = true ∧
    envNotRepo.repoIsRepo = false ∧
    (run cfgRepo envNotRepo).calls = [GitCall.checkRepo, GitCall.fetch] ∧
    GitCall.fetch ∈ (run cfgRepo envNotRepo).calls ∧
    (run cfgRepo envNotRepo).exitCode = 1 := by
  refine ⟨rfl, rfl, ?_, ?_, ?_⟩ <;> decide

end TrimBranches
